import Mathlib

/-!
Verification of the named-entity and event extraction pipeline
(`named_entity_extraction/extraction_rules.py`, `named_entity_extraction/config.py`).

Texts are modelled as `List Char`.  Python regular expressions are modelled by
an explicit abstract syntax (`Regex`) together with a fuel-indexed backtracking
matcher `matchF` that enumerates match outcomes in Python's backtracking
preference order (leftmost, greedy/lazy as annotated); `finditer` reproduces
`re.finditer`: repeated leftmost non-overlapping search.  The fuel only bounds
recursion depth; it is instantiated generously (`mfuel`), and all universally
quantified lemmas below hold for every fuel value.
-/

namespace NEE

/-- Characters stripped by Python `str.strip()` (ASCII whitespace). -/
def isPySpace (c : Char) : Bool :=
  c = ' ' || c = '\t' || c = '\n' || c = '\r' || c = '\x0b' || c = '\x0c'

/-- Python slicing `t[s:e]` for `0 ≤ s, e` (empty when `s ≥ e`). -/
def slice (t : List Char) (s e : ℕ) : List Char :=
  (t.take e).drop s

/-- Python `str.strip()`: drop whitespace from both ends. -/
def pyStrip (t : List Char) : List Char :=
  ((t.dropWhile isPySpace).reverse.dropWhile isPySpace).reverse

/-- Python `\w` on ASCII input: letters, digits, underscore. -/
def isWordChar (c : Char) : Bool :=
  c.isAlpha || c.isDigit || c = '_'

/-! ## Regex abstract syntax

Mirrors the constructs used by the patterns in `config.py` and
`extraction_rules.py`: literals, character classes (with ranges, `\w`, `\s`,
`\d`, negation), concatenation, alternation, counted repetition
(greedy or lazy), capturing groups, `\b` and `$`. -/

/-- One item of a character class. -/
inductive CCItem
  | ch (c : Char)
  | range (lo hi : Char)
  | wordC
  | spaceC
  | digitC
deriving DecidableEq, Repr

/-- Regex abstract syntax. `rep r lo hi lz`: between `lo` and `hi` (none =
unbounded) repetitions, lazy when `lz`. -/
inductive Regex
  | eps
  | lit (c : Char)
  | cls (neg : Bool) (items : List CCItem)
  | seq (r1 r2 : Regex)
  | alt (r1 r2 : Regex)
  | rep (r : Regex) (lo : ℕ) (hi : Option ℕ) (lz : Bool)
  | grp (idx : ℕ) (r : Regex)
  | wb
  | eos
deriving DecidableEq, Repr

/-- Does one class item accept a character? -/
def ccItemHit (it : CCItem) (c : Char) : Bool :=
  match it with
  | .ch a => c = a
  | .range lo hi => lo ≤ c && c ≤ hi
  | .wordC => isWordChar c
  | .spaceC => isPySpace c
  | .digitC => c.isDigit

/-- Class membership, honouring the `(?i)` flag by case folding. -/
def clsHit (ci neg : Bool) (items : List CCItem) (c : Char) : Bool :=
  let base := fun d => items.any (fun it => ccItemHit it d)
  let m := if ci then base c || base c.toLower || base c.toUpper else base c
  if neg then !m else m

/-- Literal-character match, honouring the `(?i)` flag. -/
def litHit (ci : Bool) (a c : Char) : Bool :=
  if ci then a.toLower = c.toLower else a = c

/-- Is the character at index `i` a word character (`false` out of range)? -/
def isWordAt (t : List Char) (i : ℕ) : Bool :=
  match t.get? i with
  | some c => isWordChar c
  | none => false

/-- Python `\b` at position `pos`. -/
def atWordB (t : List Char) (pos : ℕ) : Bool :=
  (if pos = 0 then false else isWordAt t (pos - 1)) != isWordAt t pos

/-- Python `$` (no MULTILINE): end of text, or just before a final newline. -/
def atEos (t : List Char) (pos : ℕ) : Bool :=
  pos = t.length || (pos + 1 = t.length && t.getD pos ' ' = '\n')

/-- Completed captures: `(group index, start, end)`, most recent first. -/
abbrev Caps := List (ℕ × ℕ × ℕ)

/-- Backtracking matcher.  `matchF ci t fuel r pos caps` returns the list of
`(end position, captures)` outcomes of matching `r` at `pos`, in Python's
backtracking preference order; the head is the outcome Python's engine picks.
Fuel bounds recursion depth only (`[]` on exhaustion). -/
def matchF (ci : Bool) (t : List Char) : ℕ → Regex → ℕ → Caps → List (ℕ × Caps)
  | 0, _, _, _ => []
  | _ + 1, .eps, pos, caps => [(pos, caps)]
  | _ + 1, .lit c, pos, caps =>
      match t[pos]? with
      | some d => if litHit ci c d then [(pos + 1, caps)] else []
      | none => []
  | _ + 1, .cls neg items, pos, caps =>
      match t[pos]? with
      | some d => if clsHit ci neg items d then [(pos + 1, caps)] else []
      | none => []
  | fuel + 1, .seq r1 r2, pos, caps =>
      (matchF ci t fuel r1 pos caps).flatMap (fun pc => matchF ci t fuel r2 pc.1 pc.2)
  | fuel + 1, .alt r1 r2, pos, caps =>
      matchF ci t fuel r1 pos caps ++ matchF ci t fuel r2 pos caps
  | fuel + 1, .rep r (n + 1) hi lz, pos, caps =>
      (matchF ci t fuel r pos caps).flatMap
        (fun pc => matchF ci t fuel (.rep r n (hi.map (· - 1)) lz) pc.1 pc.2)
  | _ + 1, .rep _ 0 (some 0) _, pos, caps => [(pos, caps)]
  | fuel + 1, .rep r 0 (some (m + 1)) true, pos, caps =>
      (pos, caps) ::
        (matchF ci t fuel r pos caps).flatMap
          (fun pc =>
            if pos < pc.1 then matchF ci t fuel (.rep r 0 (some m) true) pc.1 pc.2
            else [])
  | fuel + 1, .rep r 0 (some (m + 1)) false, pos, caps =>
      ((matchF ci t fuel r pos caps).flatMap
        (fun pc =>
          if pos < pc.1 then matchF ci t fuel (.rep r 0 (some m) false) pc.1 pc.2
          else [])) ++ [(pos, caps)]
  | fuel + 1, .rep r 0 none true, pos, caps =>
      (pos, caps) ::
        (matchF ci t fuel r pos caps).flatMap
          (fun pc =>
            if pos < pc.1 then matchF ci t fuel (.rep r 0 none true) pc.1 pc.2
            else [])
  | fuel + 1, .rep r 0 none false, pos, caps =>
      ((matchF ci t fuel r pos caps).flatMap
        (fun pc =>
          if pos < pc.1 then matchF ci t fuel (.rep r 0 none false) pc.1 pc.2
          else [])) ++ [(pos, caps)]
  | fuel + 1, .grp i r, pos, caps =>
      (matchF ci t fuel r pos caps).map (fun pc => (pc.1, (i, pos, pc.1) :: pc.2))
  | _ + 1, .wb, pos, caps => if atWordB t pos then [(pos, caps)] else []
  | _ + 1, .eos, pos, caps => if atEos t pos then [(pos, caps)] else []

/-- Structural size of a regex, used to pick a generous fuel. -/
def regexSize : Regex → ℕ
  | .eps | .lit _ | .cls _ _ | .wb | .eos => 1
  | .seq r1 r2 | .alt r1 r2 => regexSize r1 + regexSize r2 + 1
  | .rep r lo _ _ => regexSize r + lo + 2
  | .grp _ r => regexSize r + 1

/-- Fuel that the concrete runs in this file never exhaust: recursion depth is
bounded by pattern size times text length per repetition level. -/
def mfuel (t : List Char) (r : Regex) : ℕ :=
  ((regexSize r + 2) * (t.length + 2)) ^ 2

/-- One anchored match attempt at `pos`, as Python's engine resolves it. -/
def matchAt (ci : Bool) (r : Regex) (t : List Char) (mf pos : ℕ) :
    Option (ℕ × Caps) :=
  (matchF ci t mf r pos []).head?

/-- Scanning loop of `re.finditer`: leftmost match from `pos`, then continue
after it (advancing one place over an empty match). -/
def scanIter (ci : Bool) (r : Regex) (t : List Char) (mf : ℕ) :
    ℕ → ℕ → List (ℕ × ℕ × Caps)
  | 0, _ => []
  | fuel + 1, pos =>
      if pos ≤ t.length then
        match matchAt ci r t mf pos with
        | some pe =>
            (pos, pe.1, pe.2) ::
              scanIter ci r t mf fuel (if pos < pe.1 then pe.1 else pos + 1)
        | none => scanIter ci r t mf fuel (pos + 1)
      else []

/-- `re.finditer(pattern, text)`: list of `(start, end, captures)`. -/
def finditer (ci : Bool) (r : Regex) (t : List Char) : List (ℕ × ℕ × Caps) :=
  scanIter ci r t (mfuel t r) (t.length + 2) 0

/-- Python `match.group(i)`: span of the last capture of group `i`. -/
def capLookup (caps : Caps) (i : ℕ) : Option (ℕ × ℕ) :=
  (caps.find? (fun c => c.1 = i)).map (fun c => c.2)

/-- Python `match.lastindex`: index of the most recently completed group. -/
def lastIndex (caps : Caps) : Option ℕ :=
  caps.head?.map (fun c => c.1)

/-! ## Pattern builders and the concrete patterns of the repository -/

/-- Concatenation of a list of regexes. -/
def rseq (rs : List Regex) : Regex := rs.foldr .seq .eps

/-- Left-to-right alternation of a list of regexes. -/
def ralts : List Regex → Regex
  | [] => .eps
  | [r] => r
  | r :: rs => .alt r (ralts rs)

/-- A literal string. -/
def rstr (s : String) : Regex := rseq (s.data.map .lit)

/-- `+` (lazy when `lz`). -/
def rplus (r : Regex) (lz : Bool) : Regex := .rep r 1 none lz

/-- `?` (greedy). -/
def ropt (r : Regex) : Regex := .rep r 0 (some 1) false

/-- `{n}`. -/
def rexact (r : Regex) (n : ℕ) : Regex := .rep r n (some n) false

/-- `\s+`. -/
def spaceP : Regex := .rep (.cls false [.spaceC]) 1 none false

/-- `.` (any character except newline). -/
def dotP : Regex := .cls true [.ch '\n']

/-- Email pattern of `_extract_custom_patterns`:
`\b[A-Za-z0-9._%+-]+@[A-Za-z0-9.-]+\.[A-Z|a-z]{2,}\b`
(the literal `|` inside the final class is kept, as in the source). -/
def emailPattern : Regex :=
  rseq [.wb,
    rplus (.cls false [.range 'A' 'Z', .range 'a' 'z', .range '0' '9',
      .ch '.', .ch '_', .ch '%', .ch '+', .ch '-']) false,
    .lit '@',
    rplus (.cls false [.range 'A' 'Z', .range 'a' 'z', .range '0' '9',
      .ch '.', .ch '-']) false,
    .lit '.',
    .rep (.cls false [.range 'A' 'Z', .ch '|', .range 'a' 'z']) 2 none false,
    .wb]

/-- `[-.\s]`. -/
def sepCls : Regex := .cls false [.ch '-', .ch '.', .spaceC]

/-- `[0-9]{n}`. -/
def digitsN (n : ℕ) : Regex := rexact (.cls false [.range '0' '9']) n

/-- Phone pattern of `_extract_custom_patterns`:
`\b(?:\+?1[-.\s]?)?\(?[0-9]{3}\)?[-.\s]?[0-9]{3}[-.\s]?[0-9]{4}\b` -/
def phonePattern : Regex :=
  rseq [.wb,
    ropt (rseq [ropt (.lit '+'), .lit '1', ropt sepCls]),
    ropt (.lit '('), digitsN 3, ropt (.lit ')'),
    ropt sepCls, digitsN 3, ropt sepCls, digitsN 4, .wb]

/-- `[\w\s,]`. -/
def wscCls : Regex := .cls false [.wordC, .spaceC, .ch ',']

/-- ANNOUNCEMENT pattern of `config.EVENT_PATTERNS`:
`([A-Z][a-zA-Z\s,]+?)\s+(announced|declared|revealed|unveiled|disclosed)\s+(?:that\s)?(.+?)(?:\.|$)` -/
def announcePattern : Regex :=
  rseq [.grp 1 (rseq [.cls false [.range 'A' 'Z'],
          rplus (.cls false [.range 'a' 'z', .range 'A' 'Z', .spaceC, .ch ',']) true]),
    spaceP,
    .grp 2 (ralts [rstr "announced", rstr "declared", rstr "revealed",
                   rstr "unveiled", rstr "disclosed"]),
    spaceP,
    ropt (rseq [rstr "that", .cls false [.spaceC]]),
    .grp 3 (rplus dotP true),
    ralts [.lit '.', .eos]]

/-- MEETING pattern (`(?i)` flag recorded in its table entry):
`(a\s+meeting|conference|summit|gathering|assembly)\s+(?:between|among|with)\s+((?:[A-Z][\w\s,]+(?:(?:and|,)\s)?)+)` -/
def meetingPattern : Regex :=
  rseq [.grp 1 (ralts [rseq [rstr "a", spaceP, rstr "meeting"], rstr "conference",
          rstr "summit", rstr "gathering", rstr "assembly"]),
    spaceP, ralts [rstr "between", rstr "among", rstr "with"], spaceP,
    .grp 2 (rplus (rseq [.cls false [.range 'A' 'Z'], rplus wscCls false,
            ropt (rseq [ralts [rstr "and", .lit ','], .cls false [.spaceC]])]) false)]

/-- LEGAL_ACTION pattern:
`([A-Z][\w\s,]+?)\s+(sued|filed\s+a\s+lawsuit\s+against|charged|convicted|sentenced)\s+([A-Z][\w\s,]+)` -/
def legalPattern : Regex :=
  rseq [.grp 1 (rseq [.cls false [.range 'A' 'Z'], rplus wscCls true]),
    spaceP,
    .grp 2 (ralts [rstr "sued",
        rseq [rstr "filed", spaceP, rstr "a", spaceP, rstr "lawsuit", spaceP,
              rstr "against"],
        rstr "charged", rstr "convicted", rstr "sentenced"]),
    spaceP,
    .grp 3 (rseq [.cls false [.range 'A' 'Z'], rplus wscCls false])]

/-- ECONOMIC_CHANGE pattern:
`(shares|revenue|profits|sales)\s+(rose|fell|increased|decreased|grew)\s+(?:by\s+)?([\d\.\s%]+)` -/
def economicPattern : Regex :=
  rseq [.grp 1 (ralts [rstr "shares", rstr "revenue", rstr "profits", rstr "sales"]),
    spaceP,
    .grp 2 (ralts [rstr "rose", rstr "fell", rstr "increased", rstr "decreased",
                   rstr "grew"]),
    spaceP, ropt (rseq [rstr "by", spaceP]),
    .grp 3 (rplus (.cls false [.digitC, .ch '.', .spaceC, .ch '%']) false)]

/-- INCIDENT pattern (`(?i)`):
`\b(an?\s+accident|a\s+crash|a\s+collision|an\s+explosion|a\s+fire)\s+(?:at|in|near)\s+((?:the\s+)?[A-Z][\w\s,]+)` -/
def incidentPattern : Regex :=
  rseq [.wb,
    .grp 1 (ralts [rseq [rstr "a", ropt (.lit 'n'), spaceP, rstr "accident"],
        rseq [rstr "a", spaceP, rstr "crash"],
        rseq [rstr "a", spaceP, rstr "collision"],
        rseq [rstr "an", spaceP, rstr "explosion"],
        rseq [rstr "a", spaceP, rstr "fire"]]),
    spaceP, ralts [rstr "at", rstr "in", rstr "near"], spaceP,
    .grp 2 (rseq [ropt (rseq [rstr "the", spaceP]), .cls false [.range 'A' 'Z'],
                  rplus wscCls false])]

/-- Temporal-heuristic pattern of `_extract_temporal_events` (`(?i)`):
`(yesterday|today|tomorrow|last\s+\w+|next\s+\w+|on\s+\w+)\s+([^.]+)` -/
def temporalPattern : Regex :=
  rseq [.grp 1 (ralts [rstr "yesterday", rstr "today", rstr "tomorrow",
        rseq [rstr "last", spaceP, rplus (.cls false [.wordC]) false],
        rseq [rstr "next", spaceP, rplus (.cls false [.wordC]) false],
        rseq [rstr "on", spaceP, rplus (.cls false [.wordC]) false]]),
    spaceP, .grp 2 (rplus (.cls true [.ch '.']) false)]

/-! ## Data model -/

/-- One entry of `config.EVENT_PATTERNS`; `ci` records the `(?i)` flag. -/
structure PatternConfig where
  pattern : Regex
  ci : Bool
  type : String
  attributes : Option (List (String × ℕ))
deriving Repr

/-- `config.EVENT_PATTERNS`, in table order. -/
def EVENT_PATTERNS : List PatternConfig :=
  [⟨announcePattern, false, "ANNOUNCEMENT",
      some [("announcer", 1), ("action", 2), ("content", 3)]⟩,
   ⟨meetingPattern, true, "MEETING",
      some [("event_type", 1), ("participants", 2)]⟩,
   ⟨legalPattern, false, "LEGAL_ACTION",
      some [("plaintiff_or_authority", 1), ("action", 2), ("defendant", 3)]⟩,
   ⟨economicPattern, false, "ECONOMIC_CHANGE",
      some [("metric", 1), ("direction", 2), ("value", 3)]⟩,
   ⟨incidentPattern, true, "INCIDENT",
      some [("incident_type", 1), ("location", 2)]⟩]

/-- `config.NEWS_ENTITY_TYPES`: `(type, color, description)`. -/
def NEWS_ENTITY_TYPES : List (String × String × String) :=
  [("PERSON", "#FF6B6B", "People mentioned in news"),
   ("ORGANIZATION", "#4ECDC4", "Companies, institutions, government bodies"),
   ("LOCATION", "#45B7D1", "Countries, cities, specific places"),
   ("DATE", "#96CEB4", "Dates and time references"),
   ("MONEY", "#FFEAA7", "Monetary values and currencies"),
   ("EVENT", "#DDA0DD", "Significant events or incidents")]

/-- `NEWS_ENTITY_TYPES.get(type, {}).get('color', '#CCCCCC')`. -/
def typeColor (ty : String) : String :=
  match NEWS_ENTITY_TYPES.find? (fun p => p.1 = ty) with
  | some p => p.2.1
  | none => "#CCCCCC"

/-- One hit of the statistical entity source (external spaCy model):
`(ent.text, ent.label_, ent.start_char, ent.end_char)`. -/
structure StatHit where
  text : List Char
  label : String
  start : ℕ
  end_ : ℕ
deriving DecidableEq, Repr

/-- Extracted entity (`end_` models the Python key `end`). -/
structure Entity where
  text : List Char
  type : String
  start : ℕ
  end_ : ℕ
  confidence : ℚ
  context : List Char
deriving DecidableEq, Repr

/-- Extracted event; `attributes` values are `none` for Python `None`. -/
structure Event where
  text : List Char
  type : String
  start : ℕ
  end_ : ℕ
  confidence : ℚ
  context : List Char
  attributes : List (String × Option (List Char))
deriving DecidableEq, Repr

/-! ## NamedEntityExtractor -/

/-- `NamedEntityExtractor._map_spacy_label`. -/
def _map_spacy_label (l : String) : String :=
  match ([("PERSON", "PERSON"), ("ORG", "ORGANIZATION"), ("GPE", "LOCATION"),
          ("LOC", "LOCATION"), ("DATE", "DATE"), ("TIME", "DATE"),
          ("MONEY", "MONEY"), ("EVENT", "EVENT")].find? (fun p => p.1 = l)) with
  | some p => p.2
  | none => l

/-- `_get_context` (both classes define it identically; `context_length = 50`).
`max(0, start - 50)` is truncated subtraction on `ℕ`. -/
def _get_context (text : List Char) (start end_ : ℕ) : List Char :=
  pyStrip (slice text (start - 50) (min text.length (end_ + 50)))

/-- `selected_types is None or 'CONTACT' in selected_types`. -/
def containsContact (sel : Option (List String)) : Bool :=
  match sel with
  | none => true
  | some l => l.contains "CONTACT"

/-- `selected_types is None or entity_type in selected_types`. -/
def keepType (sel : Option (List String)) (ty : String) : Bool :=
  match sel with
  | none => true
  | some l => l.contains ty

/-- `NamedEntityExtractor._extract_custom_patterns`. -/
def _extract_custom_patterns (text : List Char) (selected_types : Option (List String)) :
    List Entity :=
  (if containsContact selected_types then
    (finditer false emailPattern text).map (fun m =>
      { text := slice text m.1 m.2.1, type := "CONTACT", start := m.1,
        end_ := m.2.1, confidence := mkRat 90 100,
        context := _get_context text m.1 m.2.1 })
   else []) ++
  (if containsContact selected_types then
    (finditer false phonePattern text).map (fun m =>
      { text := slice text m.1 m.2.1, type := "CONTACT", start := m.1,
        end_ := m.2.1, confidence := mkRat 85 100,
        context := _get_context text m.1 m.2.1 })
   else [])

/-- Deduplication key: `(entity['text'].lower(), entity['start'], entity['end'])`. -/
def entityKey (e : Entity) : List Char × ℕ × ℕ :=
  (e.text.map Char.toLower, e.start, e.end_)

/-- The `seen`-set loop of `_remove_duplicates`. -/
def dedupCore : List Entity → List (List Char × ℕ × ℕ) → List Entity
  | [], _ => []
  | e :: es, seen =>
      if entityKey e ∈ seen then dedupCore es seen
      else e :: dedupCore es (entityKey e :: seen)

/-- Stable insertion for `sorted(..., key=...)`. -/
def insertByKey {α : Type} (key : α → ℕ) (x : α) : List α → List α
  | [] => [x]
  | y :: ys => if key x ≤ key y then x :: y :: ys else y :: insertByKey key x ys

/-- Python `sorted(l, key=key)` (a stable sort). -/
def sortByKey {α : Type} (key : α → ℕ) : List α → List α
  | [] => []
  | x :: xs => insertByKey key x (sortByKey key xs)

/-- `NamedEntityExtractor._remove_duplicates`. -/
def _remove_duplicates (entities : List Entity) : List Entity :=
  sortByKey (fun e => e.start) (dedupCore entities [])

/-- The list `entities` built by `extract_entities` before deduplication:
statistical-source hits (filtered, label-mapped, confidence 0.8) followed by
the custom-pattern hits.  The statistical source (`self.nlp`, the external
spaCy model) is passed as an optional capability, `none` when the model
failed to load. -/
def entity_candidates (nlp : Option (List Char → List StatHit)) (text : List Char)
    (selected_types : Option (List String)) : List Entity :=
  (match nlp with
   | none => []
   | some f => (f text).filterMap (fun h =>
       let ty := _map_spacy_label h.label
       if keepType selected_types ty then
         some { text := h.text, type := ty, start := h.start, end_ := h.end_,
                confidence := mkRat 80 100, context := _get_context text h.start h.end_ }
       else none)) ++ _extract_custom_patterns text selected_types

/-- `NamedEntityExtractor.extract_entities`: candidate collection followed by
`_remove_duplicates`. -/
def extract_entities (nlp : Option (List Char → List StatHit)) (text : List Char)
    (selected_types : Option (List String)) : List Entity :=
  _remove_duplicates (entity_candidates nlp text selected_types)

/-! ## EventExtractor -/

/-- `EventExtractor._extract_attributes`, over an abstract match interface:
`li` is `match.lastindex`, `grp i` the span of `match.group(i)`.
Python evaluates `match.lastindex >= group_index`; when `lastindex` is `None`
this raises `TypeError`, modelled by `Except.error`. -/
def _extract_attributes (text : List Char) (li : Option ℕ)
    (grp : ℕ → Option (ℕ × ℕ)) (attrs : Option (List (String × ℕ))) :
    Except Unit (List (String × Option (List Char))) :=
  match attrs with
  | none => .ok []
  | some l => l.mapM (fun a =>
      match li with
      | none => .error ()
      | some k =>
          if a.2 ≤ k then
            .ok (a.1, (grp a.2).map (fun sp => slice text sp.1 sp.2))
          else .ok (a.1, none))

/-- `EventExtractor._extract_temporal_events`. -/
def _extract_temporal_events (text : List Char) : List Event :=
  (finditer true temporalPattern text).map (fun m =>
    { text := slice text m.1 m.2.1, type := "TEMPORAL_EVENT", start := m.1,
      end_ := m.2.1, confidence := mkRat 60 100,
      context := _get_context text m.1 m.2.1,
      attributes :=
        [("temporal_marker",
            (capLookup m.2.2 1).map (fun sp => slice text sp.1 sp.2)),
         ("event_description",
            (capLookup m.2.2 2).map (fun sp => slice text sp.1 sp.2))] })

/-- The double loop of `extract_events` over the pattern table: one event per
match, per table entry, propagating the possible `TypeError` of
`_extract_attributes`. -/
def pattern_events (text : List Char) : Except Unit (List (List Event)) :=
  EVENT_PATTERNS.mapM (fun cfg =>
    (finditer cfg.ci cfg.pattern text).mapM (fun m => do
      let attrs ← _extract_attributes text (lastIndex m.2.2) (capLookup m.2.2)
        cfg.attributes
      pure ({ text := slice text m.1 m.2.1, type := cfg.type, start := m.1,
              end_ := m.2.1, confidence := mkRat 70 100,
              context := _get_context text m.1 m.2.1,
              attributes := attrs } : Event)))

/-- `EventExtractor.extract_events`: pattern-table events, then temporal
events, then `sorted(..., key=start)`. -/
def extract_events (text : List Char) : Except Unit (List Event) := do
  let evss ← pattern_events text
  pure (sortByKey (fun e => e.start) (evss.flatten ++ _extract_temporal_events text))

/-! ## TextProcessor -/

/-- `TextProcessor._generate_statistics` result. -/
structure Statistics where
  total_entities : ℕ
  total_events : ℕ
  entity_counts : List (String × ℕ)
  event_counts : List (String × ℕ)
deriving DecidableEq, Repr

/-- `counts[k] = counts.get(k, 0) + 1` on an insertion-ordered dict. -/
def bump (m : List (String × ℕ)) (k : String) : List (String × ℕ) :=
  if m.any (fun p => p.1 = k) then
    m.map (fun p => if p.1 = k then (p.1, p.2 + 1) else p)
  else m ++ [(k, 1)]

/-- The counting loops of `_generate_statistics`. -/
def countTypes (tys : List String) : List (String × ℕ) := tys.foldl bump []

/-- `TextProcessor._generate_statistics`. -/
def _generate_statistics (entities : List Entity) (events : List Event) : Statistics :=
  { total_entities := entities.length, total_events := events.length,
    entity_counts := countTypes (entities.map (fun e => e.type)),
    event_counts := countTypes (events.map (fun e => e.type)) }

/-- The fields of an entity or event the highlighter reads. -/
structure HItem where
  text : List Char
  type : String
  start : ℕ
  end_ : ℕ
  confidence : ℚ
deriving DecidableEq, Repr

/-- Entity viewed as a highlight item. -/
def Entity.toH (e : Entity) : HItem := ⟨e.text, e.type, e.start, e.end_, e.confidence⟩

/-- Event viewed as a highlight item. -/
def Event.toH (e : Event) : HItem := ⟨e.text, e.type, e.start, e.end_, e.confidence⟩

/-- Decimal digit character. -/
def digitChar (n : ℕ) : Char := Char.ofNat (48 + n % 10)

/-- Decimal digits of a natural number (fuel-indexed). -/
def natCharsAux : ℕ → ℕ → List Char
  | 0, _ => []
  | fuel + 1, n =>
      if n < 10 then [digitChar n] else natCharsAux fuel (n / 10) ++ [digitChar (n % 10)]

/-- Decimal digits of a natural number. -/
def natChars (n : ℕ) : List Char := natCharsAux (n + 1) n

/-- Python `str()` of a stored confidence (all confidences in this code are
exact hundredths, whose float repr is the shortest decimal). -/
def confRaw (q : ℚ) : List Char :=
  let n := q.num.toNat * (100 / q.den)
  natChars (n / 100) ++ '.' ::
    (if n % 100 % 10 = 0 then [digitChar (n % 100 / 10)]
     else [digitChar (n % 100 / 10), digitChar (n % 100)])

/-- Python `:.2f` of a stored confidence. -/
def conf2 (q : ℚ) : List Char :=
  let n := q.num.toNat * (100 / q.den)
  natChars (n / 100) ++ '.' :: [digitChar (n % 100 / 10), digitChar (n % 100)]

/-- The opening markup wrapper emitted by `_highlight_text` for one item. -/
def openTag (it : HItem) : List Char :=
  "<span class=\"highlight\" data-type=\"".data ++ it.type.data ++
  "\" data-confidence=\"".data ++ confRaw it.confidence ++
  "\" style=\"background-color: ".data ++ (typeColor it.type).data ++
  "; padding: 2px 4px; border-radius: 3px; margin: 1px;\" title=\"".data ++
  it.type.data ++ " (Confidence: ".data ++ conf2 it.confidence ++ ")\">".data

/-- The closing markup wrapper. -/
def closeTag : List Char := "</span>".data

/-- A fragment of the highlighter's output: literal text, or a markup wrapper. -/
inductive HFrag
  | textOf (s : List Char)
  | markup (s : List Char)
deriving DecidableEq, Repr

/-- The fragment sequence emitted by the loop of `_highlight_text`:
per item the untouched slice `text[last_end:start]`, the opening wrapper,
the item's own text, the closing wrapper; finally `text[last_end:]`. -/
def highlightFrags (text : List Char) : List HItem → ℕ → List HFrag
  | [], lastEnd => [.textOf (text.drop lastEnd)]
  | it :: rest, lastEnd =>
      .textOf (slice text lastEnd it.start) :: .markup (openTag it) ::
      .textOf it.text :: .markup closeTag :: highlightFrags text rest it.end_

/-- Concatenation of all fragments: the string `_highlight_text` returns. -/
def renderFrags (fs : List HFrag) : List Char :=
  fs.flatMap (fun f => match f with | .textOf s => s | .markup s => s)

/-- Concatenation of the literal fragments only (markup wrappers stripped). -/
def stripMarkup (fs : List HFrag) : List Char :=
  fs.flatMap (fun f => match f with | .textOf s => s | .markup _ => [])

/-- `TextProcessor._highlight_text`. -/
def _highlight_text (text : List Char) (entities : List Entity)
    (events : List Event) : List Char :=
  let all_items := sortByKey (fun i => i.start)
    (entities.map Entity.toH ++ events.map Event.toH)
  renderFrags (highlightFrags text all_items 0)

/-- The result dict of `process_text`. -/
structure ProcResult where
  entities : List Entity
  events : List Event
  statistics : Statistics
  highlighted_text : List Char
deriving DecidableEq, Repr

/-- `TextProcessor.process_text`.  `extract_events_flag` models the Python
parameter `extract_events` (renamed to avoid shadowing the function). -/
def process_text (nlp : Option (List Char → List StatHit)) (text : List Char)
    (selected_entity_types : Option (List String))
    (extract_events_flag : Bool) : Except Unit ProcResult := do
  let entities := extract_entities nlp text selected_entity_types
  let events ← if extract_events_flag then extract_events text else pure []
  pure { entities := entities, events := events,
         statistics := _generate_statistics entities events,
         highlighted_text := _highlight_text text entities events }

/-! ## Lemmas about the stable sort `sortByKey` -/

section SortLemmas

variable {α : Type} (key : α → ℕ)

theorem insertByKey_perm (x : α) (l : List α) :
    (insertByKey key x l).Perm (x :: l) := by
  induction l with
  | nil => simp [insertByKey]
  | cons y ys ih =>
      by_cases h : key x ≤ key y
      · simp [insertByKey, h]
      · simp only [insertByKey, if_neg h]
        exact (ih.cons y).trans (List.Perm.swap x y ys)

theorem sortByKey_perm (l : List α) : (sortByKey key l).Perm l := by
  induction l with
  | nil => simp [sortByKey]
  | cons x xs ih =>
      exact (insertByKey_perm key x (sortByKey key xs)).trans (ih.cons x)

theorem mem_sortByKey {x : α} {l : List α} :
    x ∈ sortByKey key l ↔ x ∈ l :=
  (sortByKey_perm key l).mem_iff

theorem insertByKey_cons (x y : α) (ys : List α) :
    insertByKey key x (y :: ys) =
      if key x ≤ key y then x :: y :: ys else y :: insertByKey key x ys := rfl

theorem insertByKey_pairwise {x : α} {l : List α}
    (h : l.Pairwise (fun a b => key a ≤ key b)) :
    (insertByKey key x l).Pairwise (fun a b => key a ≤ key b) := by
  induction l with
  | nil => simp [insertByKey]
  | cons y ys ih =>
      rcases List.pairwise_cons.mp h with ⟨hy, hys⟩
      rw [insertByKey_cons]
      by_cases hxy : key x ≤ key y
      · rw [if_pos hxy]
        refine List.pairwise_cons.mpr ⟨?_, h⟩
        intro z hz
        rcases List.mem_cons.mp hz with rfl | hz
        · exact hxy
        · exact le_trans hxy (hy z hz)
      · rw [if_neg hxy]
        refine List.pairwise_cons.mpr ⟨?_, ih hys⟩
        intro z hz
        rcases List.mem_cons.mp ((insertByKey_perm key x ys).mem_iff.mp hz) with
          rfl | hz
        · exact le_of_lt (lt_of_not_le hxy)
        · exact hy z hz

theorem sortByKey_pairwise (l : List α) :
    (sortByKey key l).Pairwise (fun a b => key a ≤ key b) := by
  induction l with
  | nil => simp [sortByKey]
  | cons x xs ih => exact insertByKey_pairwise key ih

theorem insertByKey_filter_key (x : α) (l : List α) (k : ℕ)
    (hsorted : l.Pairwise (fun a b => key a ≤ key b)) :
    (insertByKey key x l).filter (fun z => decide (key z = k)) =
      if key x = k then x :: l.filter (fun z => decide (key z = k))
      else l.filter (fun z => decide (key z = k)) := by
  induction l with
  | nil => by_cases h : key x = k <;> simp [insertByKey, List.filter, h]
  | cons y ys ih =>
      rcases List.pairwise_cons.mp hsorted with ⟨-, hys⟩
      rw [insertByKey_cons]
      by_cases hxy : key x ≤ key y
      · rw [if_pos hxy]
        by_cases hxk : key x = k
        · rw [if_pos hxk]; simp [List.filter_cons, hxk]
        · rw [if_neg hxk]; simp [List.filter_cons, hxk]
      · have hyx : key y < key x := lt_of_not_le hxy
        rw [if_neg hxy]
        by_cases hxk : key x = k
        · have hyk : ¬ key y = k := by omega
          rw [if_pos hxk]
          simp only [List.filter_cons]
          rw [ih hys, if_pos hxk]
          simp [hyk]
        · rw [if_neg hxk]
          simp only [List.filter_cons]
          rw [ih hys, if_neg hxk]

theorem sortByKey_filter_key (l : List α) (k : ℕ) :
    (sortByKey key l).filter (fun z => decide (key z = k)) =
      l.filter (fun z => decide (key z = k)) := by
  induction l with
  | nil => simp [sortByKey]
  | cons x xs ih =>
      rw [sortByKey, insertByKey_filter_key key x _ k (sortByKey_pairwise key xs)]
      by_cases hxk : key x = k <;> simp [List.filter, hxk, ih]

theorem insertByKey_of_le (x : α) (l : List α)
    (h : ∀ y ∈ l, key x ≤ key y) : insertByKey key x l = x :: l := by
  cases l with
  | nil => rfl
  | cons y ys => simp [insertByKey, h y (List.mem_cons_self y ys)]

theorem sortByKey_of_pairwise (l : List α)
    (h : l.Pairwise (fun a b => key a ≤ key b)) : sortByKey key l = l := by
  induction l with
  | nil => rfl
  | cons x xs ih =>
      rcases List.pairwise_cons.mp h with ⟨hx, hxs⟩
      rw [sortByKey, ih hxs, insertByKey_of_le key x xs hx]

end SortLemmas

/-! ## Lemmas about `dedupCore` -/

theorem mem_of_mem_dedupCore {x : Entity} :
    ∀ {l : List Entity} {seen : List (List Char × ℕ × ℕ)},
      x ∈ dedupCore l seen → x ∈ l := by
  intro l
  induction l with
  | nil => intro seen h; simp [dedupCore] at h
  | cons e es ih =>
      intro seen h
      by_cases hk : entityKey e ∈ seen
      · simp only [dedupCore, if_pos hk] at h
        exact List.mem_cons_of_mem e (ih h)
      · simp only [dedupCore, if_neg hk, List.mem_cons] at h
        rcases h with rfl | h
        · exact List.mem_cons_self x es
        · exact List.mem_cons_of_mem e (ih h)

theorem dedupCore_key_not_seen {x : Entity} :
    ∀ {l : List Entity} {seen : List (List Char × ℕ × ℕ)},
      x ∈ dedupCore l seen → entityKey x ∉ seen := by
  intro l
  induction l with
  | nil => intro seen h; simp [dedupCore] at h
  | cons e es ih =>
      intro seen h
      by_cases hk : entityKey e ∈ seen
      · simp only [dedupCore, if_pos hk] at h
        exact ih h
      · simp only [dedupCore, if_neg hk, List.mem_cons] at h
        rcases h with rfl | h
        · exact hk
        · intro hx
          exact ih h (List.mem_cons_of_mem _ hx)

theorem dedupCore_pairwise :
    ∀ (l : List Entity) (seen : List (List Char × ℕ × ℕ)),
      (dedupCore l seen).Pairwise (fun a b => entityKey a ≠ entityKey b) := by
  intro l
  induction l with
  | nil => intro seen; simp [dedupCore]
  | cons e es ih =>
      intro seen
      by_cases hk : entityKey e ∈ seen
      · simp only [dedupCore, if_pos hk]
        exact ih seen
      · simp only [dedupCore, if_neg hk]
        refine List.pairwise_cons.mpr ⟨?_, ih _⟩
        intro x hx he
        exact dedupCore_key_not_seen hx (by rw [← he]; exact List.mem_cons_self _ _)

theorem dedupCore_find? {x : Entity} :
    ∀ {l : List Entity} {seen : List (List Char × ℕ × ℕ)},
      x ∈ dedupCore l seen →
      l.find? (fun y => decide (entityKey y = entityKey x)) = some x := by
  intro l
  induction l with
  | nil => intro seen h; simp [dedupCore] at h
  | cons e es ih =>
      intro seen h
      by_cases hk : entityKey e ∈ seen
      · simp only [dedupCore, if_pos hk] at h
        have hne : entityKey e ≠ entityKey x := by
          intro he; exact dedupCore_key_not_seen h (he ▸ hk)
        rw [List.find?_cons_of_neg _ (by simpa using hne)]
        exact ih h
      · simp only [dedupCore, if_neg hk, List.mem_cons] at h
        rcases h with rfl | h
        · exact List.find?_cons_of_pos _ (by simp)
        · have hne : entityKey e ≠ entityKey x := by
            intro he
            exact dedupCore_key_not_seen h (he ▸ List.mem_cons_self _ _)
          rw [List.find?_cons_of_neg _ (by simpa using hne)]
          exact ih h

theorem dedupCore_of_pairwise :
    ∀ (l : List Entity) (seen : List (List Char × ℕ × ℕ)),
      l.Pairwise (fun a b => entityKey a ≠ entityKey b) →
      (∀ x ∈ l, entityKey x ∉ seen) → dedupCore l seen = l := by
  intro l
  induction l with
  | nil => intro seen _ _; rfl
  | cons e es ih =>
      intro seen hp hs
      rcases List.pairwise_cons.mp hp with ⟨he, hes⟩
      rw [dedupCore, if_neg (hs e (List.mem_cons_self e es))]
      congr 1
      refine ih _ hes ?_
      intro x hx
      simp only [List.mem_cons, not_or]
      exact ⟨fun hc => he x hx hc.symm, hs x (List.mem_cons_of_mem e hx)⟩

/-! ## Positional lemmas about the matcher and `finditer` -/

theorem matchF_mono {ci : Bool} {t : List Char} :
    ∀ {fuel : ℕ} {r : Regex} {pos : ℕ} {caps : Caps} {pc : ℕ × Caps},
      pc ∈ matchF ci t fuel r pos caps → pos ≤ pc.1 := by
  intro fuel
  induction fuel with
  | zero => intro r pos caps pc h; simp [matchF] at h
  | succ n ih =>
      intro r pos caps pc h
      cases r with
      | eps =>
          simp only [matchF, List.mem_singleton] at h
          subst h; exact le_rfl
      | lit c =>
          cases hg : t[pos]? with
          | none => simp [matchF, hg] at h
          | some d =>
              simp only [matchF, hg] at h
              by_cases hl : litHit ci c d
              · simp only [if_pos hl, List.mem_singleton] at h
                subst h; exact Nat.le_succ pos
              · simp [if_neg hl] at h
      | cls neg items =>
          cases hg : t[pos]? with
          | none => simp [matchF, hg] at h
          | some d =>
              simp only [matchF, hg] at h
              by_cases hl : clsHit ci neg items d
              · simp only [if_pos hl, List.mem_singleton] at h
                subst h; exact Nat.le_succ pos
              · simp [if_neg hl] at h
      | seq r1 r2 =>
          simp only [matchF, List.mem_flatMap] at h
          obtain ⟨pc1, h1, h2⟩ := h
          exact le_trans (ih h1) (ih h2)
      | alt r1 r2 =>
          simp only [matchF, List.mem_append] at h
          rcases h with h | h
          · exact ih h
          · exact ih h
      | rep r lo hi lz =>
          cases lo with
          | succ n' =>
              simp only [matchF, List.mem_flatMap] at h
              obtain ⟨pc1, h1, h2⟩ := h
              exact le_trans (ih h1) (ih h2)
          | zero =>
              have star :
                  ∀ (hi' : Option ℕ) (lz' : Bool),
                    pc ∈ (matchF ci t n r pos caps).flatMap
                      (fun pc1 =>
                        if pos < pc1.1 then
                          matchF ci t n (.rep r 0 hi' lz') pc1.1 pc1.2
                        else []) → pos ≤ pc.1 := by
                intro hi' lz' hm
                simp only [List.mem_flatMap] at hm
                obtain ⟨pc1, h1, h2⟩ := hm
                by_cases hlt : pos < pc1.1
                · rw [if_pos hlt] at h2
                  exact le_trans (le_of_lt hlt) (ih h2)
                · simp [if_neg hlt] at h2
              cases hi with
              | none =>
                  cases lz with
                  | true =>
                      simp only [matchF, List.mem_cons] at h
                      rcases h with rfl | h
                      · exact le_rfl
                      · exact star none true h
                  | false =>
                      simp only [matchF, List.mem_append, List.mem_singleton] at h
                      rcases h with h | rfl
                      · exact star none false h
                      · exact le_rfl
              | some m =>
                  cases m with
                  | zero =>
                      simp only [matchF, List.mem_singleton] at h
                      subst h; exact le_rfl
                  | succ m' =>
                      cases lz with
                      | true =>
                          simp only [matchF, List.mem_cons] at h
                          rcases h with rfl | h
                          · exact le_rfl
                          · exact star (some m') true h
                      | false =>
                          simp only [matchF, List.mem_append, List.mem_singleton] at h
                          rcases h with h | rfl
                          · exact star (some m') false h
                          · exact le_rfl
      | grp i r =>
          simp only [matchF, List.mem_map] at h
          obtain ⟨pc1, h1, heq⟩ := h
          have hle := ih h1
          rw [← heq]
          exact hle
      | wb =>
          simp only [matchF] at h
          by_cases hb : atWordB t pos
          · simp only [if_pos hb, List.mem_singleton] at h
            subst h; exact le_rfl
          · simp [if_neg hb] at h
      | eos =>
          simp only [matchF] at h
          by_cases hb : atEos t pos
          · simp only [if_pos hb, List.mem_singleton] at h
            subst h; exact le_rfl
          · simp [if_neg hb] at h

theorem matchF_le_length {ci : Bool} {t : List Char} :
    ∀ {fuel : ℕ} {r : Regex} {pos : ℕ} {caps : Caps} {pc : ℕ × Caps},
      pos ≤ t.length → pc ∈ matchF ci t fuel r pos caps → pc.1 ≤ t.length := by
  intro fuel
  induction fuel with
  | zero => intro r pos caps pc _ h; simp [matchF] at h
  | succ n ih =>
      intro r pos caps pc hpos h
      cases r with
      | eps =>
          simp only [matchF, List.mem_singleton] at h
          subst h; exact hpos
      | lit c =>
          cases hg : t[pos]? with
          | none => simp [matchF, hg] at h
          | some d =>
              have hlt : pos < t.length := by
                by_contra hge
                rw [List.getElem?_eq_none (le_of_not_lt hge)] at hg
                exact Option.noConfusion hg
              simp only [matchF, hg] at h
              by_cases hl : litHit ci c d
              · simp only [if_pos hl, List.mem_singleton] at h
                subst h; exact hlt
              · simp [if_neg hl] at h
      | cls neg items =>
          cases hg : t[pos]? with
          | none => simp [matchF, hg] at h
          | some d =>
              have hlt : pos < t.length := by
                by_contra hge
                rw [List.getElem?_eq_none (le_of_not_lt hge)] at hg
                exact Option.noConfusion hg
              simp only [matchF, hg] at h
              by_cases hl : clsHit ci neg items d
              · simp only [if_pos hl, List.mem_singleton] at h
                subst h; exact hlt
              · simp [if_neg hl] at h
      | seq r1 r2 =>
          simp only [matchF, List.mem_flatMap] at h
          obtain ⟨pc1, h1, h2⟩ := h
          exact ih (ih hpos h1) h2
      | alt r1 r2 =>
          simp only [matchF, List.mem_append] at h
          rcases h with h | h
          · exact ih hpos h
          · exact ih hpos h
      | rep r lo hi lz =>
          cases lo with
          | succ n' =>
              simp only [matchF, List.mem_flatMap] at h
              obtain ⟨pc1, h1, h2⟩ := h
              exact ih (ih hpos h1) h2
          | zero =>
              have star :
                  ∀ (hi' : Option ℕ) (lz' : Bool),
                    pc ∈ (matchF ci t n r pos caps).flatMap
                      (fun pc1 =>
                        if pos < pc1.1 then
                          matchF ci t n (.rep r 0 hi' lz') pc1.1 pc1.2
                        else []) → pc.1 ≤ t.length := by
                intro hi' lz' hm
                simp only [List.mem_flatMap] at hm
                obtain ⟨pc1, h1, h2⟩ := hm
                by_cases hlt : pos < pc1.1
                · rw [if_pos hlt] at h2
                  exact ih (ih hpos h1) h2
                · simp [if_neg hlt] at h2
              cases hi with
              | none =>
                  cases lz with
                  | true =>
                      simp only [matchF, List.mem_cons] at h
                      rcases h with rfl | h
                      · exact hpos
                      · exact star none true h
                  | false =>
                      simp only [matchF, List.mem_append, List.mem_singleton] at h
                      rcases h with h | rfl
                      · exact star none false h
                      · exact hpos
              | some m =>
                  cases m with
                  | zero =>
                      simp only [matchF, List.mem_singleton] at h
                      subst h; exact hpos
                  | succ m' =>
                      cases lz with
                      | true =>
                          simp only [matchF, List.mem_cons] at h
                          rcases h with rfl | h
                          · exact hpos
                          · exact star (some m') true h
                      | false =>
                          simp only [matchF, List.mem_append, List.mem_singleton] at h
                          rcases h with h | rfl
                          · exact star (some m') false h
                          · exact hpos
      | grp i r =>
          simp only [matchF, List.mem_map] at h
          obtain ⟨pc1, h1, heq⟩ := h
          have hle := ih hpos h1
          rw [← heq]
          exact hle
      | wb =>
          simp only [matchF] at h
          by_cases hb : atWordB t pos
          · simp only [if_pos hb, List.mem_singleton] at h
            subst h; exact hpos
          · simp [if_neg hb] at h
      | eos =>
          simp only [matchF] at h
          by_cases hb : atEos t pos
          · simp only [if_pos hb, List.mem_singleton] at h
            subst h; exact hpos
          · simp [if_neg hb] at h

/-- Syntactic criterion (verification-side): a regex that can never succeed
without consuming at least one character.  All the repository's patterns
satisfy it, which yields `start < end` for every match. -/
def consumesOne : Regex → Bool
  | .eps | .wb | .eos => false
  | .lit _ => true
  | .cls _ _ => true
  | .seq r1 r2 => consumesOne r1 || consumesOne r2
  | .alt r1 r2 => consumesOne r1 && consumesOne r2
  | .rep r (_ + 1) _ _ => consumesOne r
  | .rep _ 0 _ _ => false
  | .grp _ r => consumesOne r

theorem matchF_consumes {ci : Bool} {t : List Char} :
    ∀ {fuel : ℕ} {r : Regex} {pos : ℕ} {caps : Caps} {pc : ℕ × Caps},
      consumesOne r = true → pc ∈ matchF ci t fuel r pos caps → pos < pc.1 := by
  intro fuel
  induction fuel with
  | zero => intro r pos caps pc _ h; simp [matchF] at h
  | succ n ih =>
      intro r pos caps pc hc h
      cases r with
      | eps => simp [consumesOne] at hc
      | lit c =>
          cases hg : t[pos]? with
          | none => simp [matchF, hg] at h
          | some d =>
              simp only [matchF, hg] at h
              by_cases hl : litHit ci c d
              · simp only [if_pos hl, List.mem_singleton] at h
                subst h; exact Nat.lt_succ_self pos
              · simp [if_neg hl] at h
      | cls neg items =>
          cases hg : t[pos]? with
          | none => simp [matchF, hg] at h
          | some d =>
              simp only [matchF, hg] at h
              by_cases hl : clsHit ci neg items d
              · simp only [if_pos hl, List.mem_singleton] at h
                subst h; exact Nat.lt_succ_self pos
              · simp [if_neg hl] at h
      | seq r1 r2 =>
          simp only [consumesOne, Bool.or_eq_true] at hc
          simp only [matchF, List.mem_flatMap] at h
          obtain ⟨pc1, h1, h2⟩ := h
          rcases hc with hc1 | hc2
          · exact lt_of_lt_of_le (ih hc1 h1) (matchF_mono h2)
          · exact lt_of_le_of_lt (matchF_mono h1) (ih hc2 h2)
      | alt r1 r2 =>
          simp only [consumesOne, Bool.and_eq_true] at hc
          simp only [matchF, List.mem_append] at h
          rcases h with h | h
          · exact ih hc.1 h
          · exact ih hc.2 h
      | rep r lo hi lz =>
          cases lo with
          | succ n' =>
              have hcr : consumesOne r = true := hc
              simp only [matchF, List.mem_flatMap] at h
              obtain ⟨pc1, h1, h2⟩ := h
              exact lt_of_lt_of_le (ih hcr h1) (matchF_mono h2)
          | zero => simp [consumesOne] at hc
      | grp i r =>
          have hcr : consumesOne r = true := hc
          simp only [matchF, List.mem_map] at h
          obtain ⟨pc1, h1, heq⟩ := h
          have hlt := ih hcr h1
          rw [← heq]
          exact hlt
      | wb => simp [consumesOne] at hc
      | eos => simp [consumesOne] at hc

theorem mem_scanIter {ci : Bool} {r : Regex} {t : List Char} {mf : ℕ} :
    ∀ {fuel pos : ℕ} {m : ℕ × ℕ × Caps},
      m ∈ scanIter ci r t mf fuel pos →
      pos ≤ m.1 ∧ m.1 ≤ m.2.1 ∧ m.2.1 ≤ t.length := by
  intro fuel
  induction fuel with
  | zero => intro pos m h; simp [scanIter] at h
  | succ n ih =>
      intro pos m h
      simp only [scanIter] at h
      by_cases hpos : pos ≤ t.length
      · rw [if_pos hpos] at h
        cases hma : matchAt ci r t mf pos with
        | none =>
            rw [hma] at h
            have := ih h
            exact ⟨le_trans (Nat.le_succ pos) this.1, this.2⟩
        | some pe =>
            rw [hma] at h
            have hpe : pe ∈ matchF ci t mf r pos [] := by
              have : (matchF ci t mf r pos []).head? = some pe := hma
              exact List.mem_of_mem_head? this
            rcases List.mem_cons.mp h with rfl | h
            · exact ⟨le_rfl, matchF_mono hpe, matchF_le_length hpos hpe⟩
            · have hnext := ih h
              refine ⟨le_trans ?_ hnext.1, hnext.2⟩
              by_cases hlt : pos < pe.1
              · rw [if_pos hlt]; exact le_of_lt hlt
              · rw [if_neg hlt]; exact Nat.le_succ pos
      · rw [if_neg hpos] at h
        simp at h

theorem mem_scanIter_consumes {ci : Bool} {r : Regex} {t : List Char} {mf : ℕ}
    (hc : consumesOne r = true) :
    ∀ {fuel pos : ℕ} {m : ℕ × ℕ × Caps},
      m ∈ scanIter ci r t mf fuel pos → m.1 < m.2.1 := by
  intro fuel
  induction fuel with
  | zero => intro pos m h; simp [scanIter] at h
  | succ n ih =>
      intro pos m h
      simp only [scanIter] at h
      by_cases hpos : pos ≤ t.length
      · rw [if_pos hpos] at h
        cases hma : matchAt ci r t mf pos with
        | none => rw [hma] at h; exact ih h
        | some pe =>
            rw [hma] at h
            have hpe : pe ∈ matchF ci t mf r pos [] :=
              List.mem_of_mem_head? hma
            rcases List.mem_cons.mp h with rfl | h
            · exact matchF_consumes hc hpe
            · exact ih h
      · rw [if_neg hpos] at h
        simp at h

theorem mem_finditer {ci : Bool} {r : Regex} {t : List Char} {m : ℕ × ℕ × Caps}
    (h : m ∈ finditer ci r t) : m.1 ≤ m.2.1 ∧ m.2.1 ≤ t.length :=
  (mem_scanIter h).2

theorem mem_finditer_lt {ci : Bool} {r : Regex} {t : List Char} {m : ℕ × ℕ × Caps}
    (hc : consumesOne r = true) (h : m ∈ finditer ci r t) : m.1 < m.2.1 :=
  mem_scanIter_consumes hc h

/-! ## Inversion lemmas: where annotations in the results come from -/

theorem except_bind_ok {γ δ : Type} (a : γ) (f : γ → Except Unit δ) :
    (Except.ok a >>= f) = f a := rfl

theorem except_bind_error {γ δ : Type} (f : γ → Except Unit δ) :
    ((Except.error () : Except Unit γ) >>= f) = .error () := rfl

theorem mapM_ok_mem {β γ : Type} {f : β → Except Unit γ} :
    ∀ {l : List β} {ys : List γ},
      l.mapM f = .ok ys → ∀ y ∈ ys, ∃ x ∈ l, f x = .ok y := by
  intro l
  induction l with
  | nil =>
      intro ys h y hy
      simp only [List.mapM_nil] at h
      cases h
      simp at hy
  | cons x l ihl =>
      intro ys h y hy
      rw [List.mapM_cons] at h
      cases hfx : f x with
      | error e => cases e; rw [hfx, except_bind_error] at h; cases h
      | ok y0 =>
          rw [hfx, except_bind_ok] at h
          cases hrest : List.mapM f l with
          | error e => cases e; rw [hrest, except_bind_error] at h; cases h
          | ok ys' =>
              rw [hrest, except_bind_ok] at h
              cases h
              rcases List.mem_cons.mp hy with rfl | hy
              · exact ⟨x, List.mem_cons_self x l, hfx⟩
              · obtain ⟨x', hx', hfx'⟩ := ihl hrest y hy
                exact ⟨x', List.mem_cons_of_mem x hx', hfx'⟩

/-- Every pattern in the event table consumes at least one character. -/
theorem EVENT_PATTERNS_consume :
    ∀ cfg ∈ EVENT_PATTERNS, consumesOne cfg.pattern = true := by decide

theorem temporalPattern_consume : consumesOne temporalPattern = true := by decide

theorem emailPattern_consume : consumesOne emailPattern = true := by decide

theorem phonePattern_consume : consumesOne phonePattern = true := by decide

theorem extract_events_mem {text : List Char} {evs : List Event} {ev : Event}
    (hok : extract_events text = .ok evs) (hm : ev ∈ evs) :
    ∃ (ci : Bool) (r : Regex) (m : ℕ × ℕ × Caps),
      consumesOne r = true ∧ m ∈ finditer ci r text ∧
      ev.start = m.1 ∧ ev.end_ = m.2.1 ∧
      ev.text = slice text m.1 m.2.1 ∧
      ev.context = _get_context text m.1 m.2.1 := by
  rw [extract_events] at hok
  cases hpe : pattern_events text with
  | error e => cases e; rw [hpe, except_bind_error] at hok; cases hok
  | ok evss =>
      rw [hpe, except_bind_ok] at hok
      cases hok
      rcases List.mem_append.mp ((mem_sortByKey _).mp hm) with hfl | htmp
      · obtain ⟨evl, hevl, hev⟩ := List.mem_flatten.mp hfl
        obtain ⟨cfg, hcfg, hmapm⟩ := mapM_ok_mem hpe evl hevl
        obtain ⟨m, hmfind, hgm⟩ := mapM_ok_mem hmapm ev hev
        refine ⟨cfg.ci, cfg.pattern, m, EVENT_PATTERNS_consume cfg hcfg, hmfind,
          ?_⟩
        cases hEA : _extract_attributes text (lastIndex m.2.2) (capLookup m.2.2)
            cfg.attributes with
        | error e => cases e; rw [hEA, except_bind_error] at hgm; cases hgm
        | ok attrs =>
            rw [hEA, except_bind_ok] at hgm
            cases hgm
            exact ⟨rfl, rfl, rfl, rfl⟩
      · obtain ⟨m, hmfind, hev⟩ := List.mem_map.mp htmp
        refine ⟨true, temporalPattern, m, temporalPattern_consume, hmfind, ?_⟩
        rw [← hev]
        exact ⟨rfl, rfl, rfl, rfl⟩

theorem entity_candidates_mem {nlp : Option (List Char → List StatHit)}
    {text : List Char} {sel : Option (List String)} {e : Entity}
    (h : e ∈ entity_candidates nlp text sel) :
    (∃ g, nlp = some g ∧ ∃ hit ∈ g text,
        keepType sel (_map_spacy_label hit.label) = true ∧
        e = { text := hit.text, type := _map_spacy_label hit.label,
              start := hit.start, end_ := hit.end_, confidence := mkRat 80 100,
              context := _get_context text hit.start hit.end_ }) ∨
    (∃ r ∈ [emailPattern, phonePattern], ∃ m ∈ finditer false r text,
        containsContact sel = true ∧ e.type = "CONTACT" ∧
        e.start = m.1 ∧ e.end_ = m.2.1 ∧ e.text = slice text m.1 m.2.1 ∧
        e.context = _get_context text m.1 m.2.1) := by
  rcases List.mem_append.mp h with hstat | hcust
  · left
    cases nlp with
    | none => simp at hstat
    | some g =>
        obtain ⟨hit, hhit, heq⟩ := List.mem_filterMap.mp hstat
        by_cases hk : keepType sel (_map_spacy_label hit.label) = true
        · simp only [hk, if_pos] at heq
          cases heq
          exact ⟨g, rfl, hit, hhit, hk, rfl⟩
        · rw [if_neg (by simpa using hk)] at heq
          cases heq
  · right
    rcases List.mem_append.mp hcust with hem | hph
    · by_cases hcc : containsContact sel = true
      · rw [if_pos hcc] at hem
        obtain ⟨m, hmfind, heq⟩ := List.mem_map.mp hem
        refine ⟨emailPattern, by simp, m, hmfind, hcc, ?_⟩
        rw [← heq]
        exact ⟨rfl, rfl, rfl, rfl, rfl⟩
      · rw [if_neg (by simpa using hcc)] at hem
        simp at hem
    · by_cases hcc : containsContact sel = true
      · rw [if_pos hcc] at hph
        obtain ⟨m, hmfind, heq⟩ := List.mem_map.mp hph
        refine ⟨phonePattern, by simp, m, hmfind, hcc, ?_⟩
        rw [← heq]
        exact ⟨rfl, rfl, rfl, rfl, rfl⟩
      · rw [if_neg (by simpa using hcc)] at hph
        simp at hph

theorem extract_entities_mem {nlp : Option (List Char → List StatHit)}
    {text : List Char} {sel : Option (List String)} {e : Entity}
    (h : e ∈ extract_entities nlp text sel) :
    e ∈ entity_candidates nlp text sel :=
  mem_of_mem_dedupCore ((mem_sortByKey _).mp h)

/-! ## Statistics lemmas -/

/-- Sum of the values of a counts dict. -/
def sumCounts (l : List (String × ℕ)) : ℕ := (l.map (fun p => p.2)).sum

theorem bump_fst (p : String × ℕ) (k : String) :
    ((if p.1 = k then (p.1, p.2 + 1) else p) : String × ℕ).1 = p.1 := by
  split <;> rfl

theorem bump_pairwise {m : List (String × ℕ)} {k : String}
    (h : m.Pairwise (fun a b => a.1 ≠ b.1)) :
    (bump m k).Pairwise (fun a b => a.1 ≠ b.1) := by
  rw [bump]
  split
  · refine (List.pairwise_map).mpr (h.imp ?_)
    intro a b hab
    rw [bump_fst, bump_fst]
    exact hab
  · rename_i hna
    rw [List.pairwise_append]
    refine ⟨h, List.pairwise_singleton _ _, ?_⟩
    intro a ham b hb
    rcases List.mem_singleton.mp hb with rfl
    intro hak
    exact hna (List.any_eq_true.mpr ⟨a, ham, by simpa using hak⟩)

theorem sum_map_bumpInc {k : String} :
    ∀ {m : List (String × ℕ)}, m.Pairwise (fun a b => a.1 ≠ b.1) →
      m.any (fun p => p.1 = k) = true →
      sumCounts (m.map (fun p => if p.1 = k then (p.1, p.2 + 1) else p)) =
        sumCounts m + 1 := by
  intro m
  induction m with
  | nil => intro _ ha; simp at ha
  | cons p ps ih =>
      intro hp ha
      rcases List.pairwise_cons.mp hp with ⟨hph, hps⟩
      by_cases hpk : p.1 = k
      · have hmap : ps.map (fun q => if q.1 = k then (q.1, q.2 + 1) else q) = ps := by
          refine List.map_congr_left ?_ |>.trans ps.map_id
          intro q hq
          have : q.1 ≠ k := by rw [← hpk]; exact fun hc => hph q hq hc.symm
          simp [this]
        simp only [List.map_cons, if_pos hpk, sumCounts, List.map_cons,
          List.sum_cons] at *
        rw [hmap]
        omega
      · have ha' : ps.any (fun q => q.1 = k) = true := by
          rcases List.any_eq_true.mp ha with ⟨q, hq, hqk⟩
          rcases List.mem_cons.mp hq with rfl | hq
          · exact absurd (by simpa using hqk) hpk
          · exact List.any_eq_true.mpr ⟨q, hq, hqk⟩
        simp only [List.map_cons, if_neg hpk, sumCounts, List.sum_cons] at *
        rw [ih hps ha']
        omega

theorem bump_sum {m : List (String × ℕ)} {k : String}
    (h : m.Pairwise (fun a b => a.1 ≠ b.1)) :
    sumCounts (bump m k) = sumCounts m + 1 := by
  rw [bump]
  split
  · rename_i ha
    exact sum_map_bumpInc h ha
  · simp [sumCounts]

theorem countTypes_sum_aux :
    ∀ (tys : List String) (m : List (String × ℕ)),
      m.Pairwise (fun a b => a.1 ≠ b.1) →
      sumCounts (tys.foldl bump m) = sumCounts m + tys.length := by
  intro tys
  induction tys with
  | nil => intro m _; simp
  | cons ty tys ih =>
      intro m hm
      rw [List.foldl_cons, ih (bump m ty) (bump_pairwise hm), bump_sum hm,
        List.length_cons]
      omega

theorem countTypes_sum (tys : List String) :
    sumCounts (countTypes tys) = tys.length := by
  have := countTypes_sum_aux tys [] (List.Pairwise.nil)
  simpa [countTypes, sumCounts] using this

/-! ## Highlighter round-trip lemmas -/

theorem slice_eq_take_drop (t : List Char) (a b : ℕ) :
    slice t a b = (t.drop a).take (b - a) := by
  rw [slice, List.drop_take]

theorem slice_append_drop (t : List Char) {a b : ℕ} (hab : a ≤ b) :
    slice t a b ++ t.drop b = t.drop a := by
  rw [slice_eq_take_drop]
  have hb : t.drop b = (t.drop a).drop (b - a) := by
    rw [List.drop_drop]
    congr 1
    omega
  rw [hb, List.take_append_drop]

theorem stripMarkup_highlightFrags (text : List Char) :
    ∀ (items : List HItem) (lastEnd : ℕ),
      (∀ it ∈ items, it.text = slice text it.start it.end_ ∧ it.start ≤ it.end_) →
      List.Chain' (fun a b => a.end_ ≤ b.start) items →
      (∀ it, items.head? = some it → lastEnd ≤ it.start) →
      stripMarkup (highlightFrags text items lastEnd) = text.drop lastEnd := by
  intro items
  induction items with
  | nil => intro lastEnd _ _ _; simp [highlightFrags, stripMarkup]
  | cons it rest ih =>
      intro lastEnd hwf hchain hle
      obtain ⟨hhead, htail⟩ := List.chain'_cons'.mp hchain
      obtain ⟨hittext, hitle⟩ := hwf it (List.mem_cons_self it rest)
      have hrec : stripMarkup (highlightFrags text rest it.end_) =
          text.drop it.end_ := by
        refine ih it.end_ (fun x hx => hwf x (List.mem_cons_of_mem it hx)) htail ?_
        intro x hx
        exact hhead x hx
      simp only [highlightFrags, stripMarkup, List.flatMap_cons, List.nil_append]
      rw [← stripMarkup, hrec, hittext,
        slice_append_drop text hitle,
        slice_append_drop text (hle it rfl)]

/-! ## Support definitions for the claim theorems -/

instance exceptDecEq {e a : Type} [DecidableEq e] [DecidableEq a] :
    DecidableEq (Except e a) := fun x y =>
  match x, y with
  | .error u, .error v =>
      if h : u = v then isTrue (by rw [h]) else isFalse (by simp [h])
  | .ok u, .ok v =>
      if h : u = v then isTrue (by rw [h]) else isFalse (by simp [h])
  | .error _, .ok _ => isFalse (by simp)
  | .ok _, .error _ => isFalse (by simp)

/-- Python `needle in hay` on strings (contiguous subsequence test). -/
def containsSeq : List Char → List Char → Bool
  | [], needle => needle.isEmpty
  | c :: tl, needle => needle.isPrefixOf (c :: tl) || containsSeq tl needle

/-- A small text on which the LEGAL_ACTION pattern fires. -/
def legalText : List Char := "Bob sued Carl".data

/-- The one event the pipeline extracts from `legalText`. -/
def legalEvent : Event :=
  { text := "Bob sued Carl".data, type := "LEGAL_ACTION", start := 0, end_ := 13,
    confidence := mkRat 70 100, context := "Bob sued Carl".data,
    attributes := [("plaintiff_or_authority", some "Bob".data),
      ("action", some "sued".data), ("defendant", some "Carl".data)] }

/-- `pattern_events legalText` payload: one hit for the third table entry. -/
def legalEvss : List (List Event) := [[], [], [legalEvent], [], []]

/-- A statistical-source hit used in witnesses. -/
def bobHit : StatHit := ⟨"Bob".data, "PERSON", 0, 3⟩

/-- A statistical source that always reports `bobHit`. -/
def bobNlp : Option (List Char → List StatHit) := some (fun _ => [bobHit])

/-- The entity the pipeline builds from `bobHit` on `legalText`. -/
def bobEntity : Entity :=
  { text := "Bob".data, type := "PERSON", start := 0, end_ := 3,
    confidence := mkRat 80 100, context := "Bob sued Carl".data }

/-! ## C1 — highlighter round-trip -/

/-- Overlapping, individually well-formed spans over `"abcd"`. -/
def c1e1 : Entity :=
  { text := "abc".data, type := "T", start := 0, end_ := 3,
    confidence := mkRat 90 100, context := "abcd".data }

/-- Second overlapping span, `[1,4)`. -/
def c1e2 : Entity :=
  { text := "bcd".data, type := "T", start := 1, end_ := 4,
    confidence := mkRat 90 100, context := "abcd".data }

/-- C1, counterexample: for the text `"abcd"` and two individually well-formed
but overlapping annotations `[0,3)` and `[1,4)`, concatenating the literal
fragments of the highlighter's output yields `"abcbcd"`, not the original
text: overlap duplicates the characters `"bc"`, because `_highlight_text`
re-emits each item's own text and moves `last_end` to the item's `end`
even when that end lies before the previous one. -/
theorem c1_roundtrip_counterexample :
    (∀ e ∈ [c1e1, c1e2], e.text = slice "abcd".data e.start e.end_ ∧
        e.start < e.end_ ∧ e.end_ ≤ "abcd".data.length) ∧
    _highlight_text "abcd".data [c1e1, c1e2] [] =
      renderFrags (highlightFrags "abcd".data
        (sortByKey (fun i => i.start)
          ([c1e1, c1e2].map Entity.toH ++ ([] : List Event).map Event.toH)) 0) ∧
    stripMarkup (highlightFrags "abcd".data
      (sortByKey (fun i => i.start)
        ([c1e1, c1e2].map Entity.toH ++ ([] : List Event).map Event.toH)) 0) ≠
      "abcd".data := by
  refine ⟨by decide, rfl, by decide⟩

/-- C1 (amended): for well-formed annotations whose spans, once merged and
sorted by `start`, are pairwise non-overlapping (adjacency allowed),
stripping all markup wrappers from the highlighter's output and
concatenating the literal fragments reproduces the original text exactly;
this covers the empty list.  (The unamended claim, which also allows
overlapping spans, is refuted by `c1_roundtrip_counterexample`.) -/
theorem c1_roundtrip_nonoverlapping (text : List Char) (entities : List Entity)
    (events : List Event)
    (hwf : ∀ it ∈ entities.map Entity.toH ++ events.map Event.toH,
        it.text = slice text it.start it.end_ ∧ it.start ≤ it.end_)
    (hsep : List.Chain' (fun a b => a.end_ ≤ b.start)
        (sortByKey (fun i => i.start)
          (entities.map Entity.toH ++ events.map Event.toH))) :
    _highlight_text text entities events =
      renderFrags (highlightFrags text
        (sortByKey (fun i => i.start)
          (entities.map Entity.toH ++ events.map Event.toH)) 0) ∧
    stripMarkup (highlightFrags text
      (sortByKey (fun i => i.start)
        (entities.map Entity.toH ++ events.map Event.toH)) 0) = text := by
  refine ⟨rfl, ?_⟩
  have h := stripMarkup_highlightFrags text
    (sortByKey (fun i => i.start) (entities.map Entity.toH ++ events.map Event.toH)) 0
    (fun it hit => hwf it ((mem_sortByKey _).mp hit)) hsep
    (fun it _ => Nat.zero_le _)
  simpa using h

/-- Adjacent (touching, non-overlapping) spans over `"abcd"`. -/
def c1w1 : Entity :=
  { text := "ab".data, type := "T", start := 0, end_ := 2,
    confidence := mkRat 90 100, context := "abcd".data }

/-- Second adjacent span, `[2,4)`. -/
def c1w2 : Entity :=
  { text := "cd".data, type := "T", start := 2, end_ := 4,
    confidence := mkRat 90 100, context := "abcd".data }

/-- Witness for `c1_roundtrip_nonoverlapping` at two adjacent spans. -/
theorem c1_roundtrip_nonoverlapping_witness :
    _highlight_text "abcd".data [c1w1, c1w2] [] =
      renderFrags (highlightFrags "abcd".data
        (sortByKey (fun i => i.start)
          ([c1w1, c1w2].map Entity.toH ++ ([] : List Event).map Event.toH)) 0) ∧
    stripMarkup (highlightFrags "abcd".data
      (sortByKey (fun i => i.start)
        ([c1w1, c1w2].map Entity.toH ++ ([] : List Event).map Event.toH)) 0) =
      "abcd".data :=
  c1_roundtrip_nonoverlapping "abcd".data [c1w1, c1w2] [] (by decide)
    (by
      show List.Chain' (fun a b => a.end_ ≤ b.start) [c1w1.toH, c1w2.toH]
      exact List.chain'_cons.mpr ⟨by decide, List.chain'_singleton _⟩)

/-! ## C2 — empty filter versus no filter -/

/-- C2, counterexample: on `"a@b.co"` with no statistical source, the filter
`[]` yields no entities while `None` yields the CONTACT e-mail entity —
`selected_types = []` is not treated as "no filter" by the code
(`'CONTACT' in []` is false). -/
theorem c2_empty_filter_counterexample :
    extract_entities none "a@b.co".data (some []) ≠
      extract_entities none "a@b.co".data none := by decide

/-- C2 (amended): `selected_types = []` filters out every entity (the result
is always `[]`, unlike `None` which applies no filter — the two differ, see
`c2_empty_filter_counterexample`); filtering by `['PERSON']` returns only
PERSON-typed entities and in particular excludes pattern-only CONTACT
entities. -/
theorem c2_filter_amended (nlp : Option (List Char → List StatHit))
    (text : List Char) :
    extract_entities nlp text (some []) = [] ∧
    ∀ e ∈ extract_entities nlp text (some ["PERSON"]), e.type = "PERSON" := by
  constructor
  · rw [List.eq_nil_iff_forall_not_mem]
    intro e he
    rcases entity_candidates_mem (extract_entities_mem he) with
      ⟨g, hg, hit, hhit, hk, heq⟩ | ⟨r, hr, m, hm, hcc, _⟩
    · simp [keepType] at hk
    · exact absurd hcc (by decide)
  · intro e he
    rcases entity_candidates_mem (extract_entities_mem he) with
      ⟨g, hg, hit, hhit, hk, heq⟩ | ⟨r, hr, m, hm, hcc, htype, _⟩
    · have hty : _map_spacy_label hit.label = "PERSON" := by
        have : _map_spacy_label hit.label ∈ ["PERSON"] := by
          simpa [keepType] using hk
        simpa using this
      rw [heq]
      exact hty
    · exact absurd hcc (by decide)

/-- Witness for `c2_filter_amended`: with a statistical source reporting a
PERSON hit, the `[]` filter still yields nothing, and the `['PERSON']`
filter yields only PERSON entities. -/
theorem c2_filter_amended_witness :
    extract_entities bobNlp legalText (some []) = [] ∧
    bobEntity.type = "PERSON" :=
  ⟨(c2_filter_amended bobNlp legalText).1,
   (c2_filter_amended bobNlp legalText).2 bobEntity (by decide)⟩

/-! ## C3 — attribute extraction never raising -/

/-- The nested pattern `((a)(b))`: the example Python's documentation gives
for `lastindex`. -/
def c3NestedPattern : Regex :=
  .grp 1 (.seq (.grp 2 (.lit 'a')) (.grp 3 (.lit 'b')))

/-- The captures of its match on `"ab"`: all three groups participate, and the
outer group completes last, so `lastindex = 1`. -/
def c3NestedCaps : Caps := [(1, 0, 2), (3, 1, 2), (2, 0, 1)]

/-- C3, counterexample — two failure modes refute the claim as stated.
(i) A match in which no capture group participated has `lastindex = None`;
the code evaluates `None >= group_index` and raises `TypeError` (modelled as
`Except.error`) instead of returning a mapping.
(ii) On the nested pattern `((a)(b))` matching `"ab"` — the example Python's
documentation gives for `lastindex` — `lastindex` is `1` (the outer group
completes last) while group 2 participated with span `[0,1)`; the guard
`match.lastindex >= group_index` then assigns `None` to an attribute whose
capture group did participate, not that group's text. -/
theorem c3_attributes_counterexample :
    _extract_attributes [] none (fun _ => none) (some [("x", 1)]) =
      .error () ∧
    finditer false c3NestedPattern "ab".data = [(0, 2, c3NestedCaps)] ∧
    lastIndex c3NestedCaps = some 1 ∧
    capLookup c3NestedCaps 2 = some (0, 1) ∧
    _extract_attributes "ab".data (lastIndex c3NestedCaps)
        (capLookup c3NestedCaps) (some [("x", 2)]) = .ok [("x", none)] :=
  ⟨rfl, by decide, rfl, rfl, rfl⟩

/-- C3 (amended): when at least one capture group participated in the match
(`lastindex` is not `None`), `_extract_attributes` returns, without raising,
the mapping that assigns to each declared attribute the text of its capture
group when that group participated *and* its index is at most `lastindex`,
and `None` otherwise — so a group that did not participate maps to `None`
without any crash on group lookup, but a participated group whose index
exceeds `lastindex` (possible for nested groups, where `lastindex` is the
last group to complete) is also mapped to `None`, not to its text.  When no
group participated at all, it returns the empty mapping if no attributes
are declared and raises `TypeError` otherwise
(`c3_attributes_counterexample`). -/
theorem c3_attributes_amended (text : List Char) (li : Option ℕ)
    (grp : ℕ → Option (ℕ × ℕ)) (attrs : Option (List (String × ℕ))) :
    _extract_attributes text li grp attrs =
      match li with
      | some k =>
          .ok ((attrs.getD []).map (fun a =>
            (a.1, if a.2 ≤ k then
                (grp a.2).map (fun sp => slice text sp.1 sp.2)
              else none)))
      | none => if (attrs.getD []).isEmpty then .ok [] else .error () := by
  cases attrs with
  | none => cases li <;> rfl
  | some l =>
      cases li with
      | none => cases l with
          | nil => rfl
          | cons a l' => rfl
      | some k =>
          have key : ∀ (l' : List (String × ℕ)),
              (l'.mapM (fun a =>
                if a.2 ≤ k then
                  Except.ok (a.1, (grp a.2).map (fun sp => slice text sp.1 sp.2))
                else Except.ok (a.1, (none : Option (List Char)))) :
                  Except Unit _) =
              .ok (l'.map (fun a =>
                (a.1, if a.2 ≤ k then
                    (grp a.2).map (fun sp => slice text sp.1 sp.2)
                  else none))) := by
            intro l'
            induction l' with
            | nil => rfl
            | cons a l' ihl =>
                rw [List.mapM_cons]
                by_cases hak : a.2 ≤ k
                · rw [if_pos hak, except_bind_ok, ihl, except_bind_ok,
                    List.map_cons, if_pos hak]
                  rfl
                · rw [if_neg hak, except_bind_ok, ihl, except_bind_ok,
                    List.map_cons, if_neg hak]
                  rfl
          exact key l

/-! ## C5 — deduplication -/

/-- C5 (confirmed): the output of `_remove_duplicates` has pairwise distinct
`(lowercased text, start, end)` keys; each output entity is the first
input entity bearing its key; and `_remove_duplicates` is idempotent. -/
theorem c5_dedup_properties (l : List Entity) :
    (_remove_duplicates l).Pairwise (fun a b => entityKey a ≠ entityKey b) ∧
    (∀ e ∈ _remove_duplicates l,
        l.find? (fun y => decide (entityKey y = entityKey e)) = some e) ∧
    _remove_duplicates (_remove_duplicates l) = _remove_duplicates l := by
  have hpair : (_remove_duplicates l).Pairwise
      (fun a b => entityKey a ≠ entityKey b) := by
    rw [_remove_duplicates]
    exact ((sortByKey_perm _ _).pairwise_iff (fun h hc => h hc.symm)).mpr
      (dedupCore_pairwise l [])
  refine ⟨hpair, ?_, ?_⟩
  · intro e he
    exact dedupCore_find? ((mem_sortByKey _).mp he)
  · rw [_remove_duplicates, dedupCore_of_pairwise _ [] hpair (by simp),
      sortByKey_of_pairwise _ _ ?hs]
    case hs =>
      rw [_remove_duplicates]
      exact sortByKey_pairwise _ _

/-- A pair of entities with the same dedup key (case-insensitive text and
identical span), differing elsewhere. -/
def dupA : Entity :=
  { text := "A".data, type := "X", start := 0, end_ := 1,
    confidence := mkRat 90 100, context := "A".data }

/-- Duplicate of `dupA` under the dedup key. -/
def dupB : Entity :=
  { text := "a".data, type := "Y", start := 0, end_ := 1,
    confidence := mkRat 60 100, context := "A".data }

/-- Witness for `c5_dedup_properties`: on a two-element duplicate list the
kept entity is the first-seen one. -/
theorem c5_dedup_properties_witness :
    [dupA, dupB].find? (fun y => decide (entityKey y = entityKey dupA)) =
      some dupA :=
  (c5_dedup_properties [dupA, dupB]).2.1 dupA (by decide)

/-! ## C4 — the worked example -/

/-- The example text of the specification. -/
def c4Text : List Char :=
  "Dr. Smith announced that the merger is complete. Contact john@example.com or call 555-123-4567.".data

/-- The CONTACT e-mail entity extracted from `c4Text`. -/
def c4EmailEntity : Entity :=
  { text := "john@example.com".data, type := "CONTACT", start := 57, end_ := 73,
    confidence := mkRat 90 100,
    context := "th announced that the merger is complete. Contact john@example.com or call 555-123-4567.".data }

/-- The CONTACT phone entity extracted from `c4Text`. -/
def c4PhoneEntity : Entity :=
  { text := "555-123-4567".data, type := "CONTACT", start := 82, end_ := 94,
    confidence := mkRat 85 100,
    context := "ger is complete. Contact john@example.com or call 555-123-4567.".data }

/-- The ANNOUNCEMENT event extracted from `c4Text`: group 1 of the pattern
(`[A-Z][a-zA-Z\s,]+?`) cannot span the period of `"Dr."`, so the match
starts at `"Smith"`. -/
def c4AnnEvent : Event :=
  { text := "Smith announced that the merger is complete.".data,
    type := "ANNOUNCEMENT", start := 4, end_ := 48, confidence := mkRat 70 100,
    context := "Dr. Smith announced that the merger is complete. Contact john@example.com or call 555-123-4567.".data,
    attributes := [("announcer", some "Smith".data),
      ("action", some "announced".data),
      ("content", some "the merger is complete".data)] }

/-- The statistics block of the pipeline result on `c4Text`. -/
def c4Stats : Statistics :=
  { total_entities := 2, total_events := 1,
    entity_counts := [("CONTACT", 2)],
    event_counts := [("ANNOUNCEMENT", 1)] }

/-- The full pipeline result on `c4Text` with no filter, events enabled and no
statistical source. -/
def c4Expected : ProcResult :=
  { entities := [c4EmailEntity, c4PhoneEntity],
    events := [c4AnnEvent],
    statistics := c4Stats,
    highlighted_text := "Dr. <span class=\"highlight\" data-type=\"ANNOUNCEMENT\" data-confidence=\"0.7\" style=\"background-color: #CCCCCC; padding: 2px 4px; border-radius: 3px; margin: 1px;\" title=\"ANNOUNCEMENT (Confidence: 0.70)\">Smith announced that the merger is complete.</span> Contact <span class=\"highlight\" data-type=\"CONTACT\" data-confidence=\"0.9\" style=\"background-color: #CCCCCC; padding: 2px 4px; border-radius: 3px; margin: 1px;\" title=\"CONTACT (Confidence: 0.90)\">john@example.com</span> or call <span class=\"highlight\" data-type=\"CONTACT\" data-confidence=\"0.85\" style=\"background-color: #CCCCCC; padding: 2px 4px; border-radius: 3px; margin: 1px;\" title=\"CONTACT (Confidence: 0.85)\">555-123-4567</span>.".data }

set_option maxHeartbeats 16000000 in
set_option maxRecDepth 100000 in
/-- Evaluation of the whole pipeline on the example text. -/
theorem c4_run : process_text none c4Text none true = .ok c4Expected := by
  decide

set_option maxRecDepth 100000 in
/-- C4, counterexample: on the example text the pipeline produces exactly one
ANNOUNCEMENT event, and no event has `attributes.announcer = "Dr. Smith"`
(the capture is `"Smith"`), refuting the claim at its own input. -/
theorem c4_example_counterexample :
    process_text none c4Text none true = .ok c4Expected ∧
    (c4Expected.events.filter (fun ev => decide (ev.type = "ANNOUNCEMENT"))).length
      = 1 ∧
    ∀ ev ∈ c4Expected.events,
      (ev.attributes.find? (fun a => decide (a.1 = "announcer"))).map
          (fun a => a.2) ≠ some (some "Dr. Smith".data) :=
  ⟨c4_run, by decide, by decide⟩

set_option maxRecDepth 100000 in
/-- C4 (amended): processing the example text with no type filter and events
enabled yields a CONTACT entity for `john@example.com` with confidence 0.9
and one for `555-123-4567` with confidence 0.85; an ANNOUNCEMENT event whose
`attributes.announcer` captures `"Smith"` (not `"Dr. Smith"`: the pattern's
first group cannot contain a period) and whose `attributes.action` captures
`"announced"`; `statistics.total_entities ≥ 2`; and a `highlighted_text` in
which both contact strings appear wrapped in markup with the literal
`" or call "` unmarked between them. -/
theorem c4_example_amended :
    process_text none c4Text none true = .ok c4Expected ∧
    c4EmailEntity ∈ c4Expected.entities ∧
    c4EmailEntity.type = "CONTACT" ∧
    c4EmailEntity.text = "john@example.com".data ∧
    c4EmailEntity.confidence = mkRat 90 100 ∧
    c4PhoneEntity ∈ c4Expected.entities ∧
    c4PhoneEntity.type = "CONTACT" ∧
    c4PhoneEntity.text = "555-123-4567".data ∧
    c4PhoneEntity.confidence = mkRat 85 100 ∧
    c4AnnEvent ∈ c4Expected.events ∧
    c4AnnEvent.type = "ANNOUNCEMENT" ∧
    c4AnnEvent.attributes.find? (fun a => decide (a.1 = "announcer")) =
      some ("announcer", some "Smith".data) ∧
    c4AnnEvent.attributes.find? (fun a => decide (a.1 = "action")) =
      some ("action", some "announced".data) ∧
    2 ≤ c4Expected.statistics.total_entities ∧
    containsSeq c4Expected.highlighted_text
      (openTag c4EmailEntity.toH ++ "john@example.com".data ++ closeTag ++
        " or call ".data ++
        openTag c4PhoneEntity.toH ++ "555-123-4567".data ++ closeTag) = true :=
  ⟨c4_run, by decide, by decide, by decide, by decide, by decide, by decide,
    by decide, by decide, by decide, by decide, by decide, by decide,
    by decide, by decide⟩

/-! ## C6 — span invariants -/

/-- C6 (confirmed): provided the statistical source reports well-formed hits
(its interface contract; the code trusts it), every entity and every event
the pipeline extracts satisfies `0 ≤ start < end ≤ len(text)` (the lower
bound is inherent to `ℕ`) and its `text` field equals `text[start:end]`.
The event half is stated for any list the (possibly raising) event extractor
actually returns. -/
theorem c6_span_invariants (nlp : Option (List Char → List StatHit))
    (text : List Char) (sel : Option (List String))
    (hstat : ∀ g, nlp = some g → ∀ hit ∈ g text,
        hit.text = slice text hit.start hit.end_ ∧ hit.start < hit.end_ ∧
        hit.end_ ≤ text.length) :
    (∀ e ∈ extract_entities nlp text sel,
        e.start < e.end_ ∧ e.end_ ≤ text.length ∧
        e.text = slice text e.start e.end_) ∧
    (∀ evs, extract_events text = .ok evs → ∀ ev ∈ evs,
        ev.start < ev.end_ ∧ ev.end_ ≤ text.length ∧
        ev.text = slice text ev.start ev.end_) := by
  constructor
  · intro e he
    rcases entity_candidates_mem (extract_entities_mem he) with
      ⟨g, hg, hit, hhit, hk, heq⟩ | ⟨r, hr, m, hm, hcc, htype, hstart, hend,
        htext, hctx⟩
    · obtain ⟨ht, hlt, hle⟩ := hstat g hg hit hhit
      rw [heq]
      exact ⟨hlt, hle, ht⟩
    · have hco : consumesOne r = true := by
        rcases List.mem_cons.mp hr with rfl | hr
        · exact emailPattern_consume
        · rcases List.mem_singleton.mp hr with rfl
          exact phonePattern_consume
      obtain ⟨hmle, hmlen⟩ := mem_finditer hm
      rw [hstart, hend, htext]
      exact ⟨mem_finditer_lt hco hm, hmlen, rfl⟩
  · intro evs hok ev hev
    obtain ⟨ci, r, m, hco, hm, hstart, hend, htext, hctx⟩ :=
      extract_events_mem hok hev
    obtain ⟨hmle, hmlen⟩ := mem_finditer hm
    rw [hstart, hend, htext]
    exact ⟨mem_finditer_lt hco hm, hmlen, rfl⟩

/-- Witness for `c6_span_invariants`: concrete statistical source, text,
entity and event. -/
theorem c6_span_invariants_witness :
    (bobEntity.start < bobEntity.end_ ∧ bobEntity.end_ ≤ legalText.length ∧
      bobEntity.text = slice legalText bobEntity.start bobEntity.end_) ∧
    (legalEvent.start < legalEvent.end_ ∧ legalEvent.end_ ≤ legalText.length ∧
      legalEvent.text = slice legalText legalEvent.start legalEvent.end_) := by
  have hstat : ∀ g, bobNlp = some g → ∀ hit ∈ g legalText,
      hit.text = slice legalText hit.start hit.end_ ∧ hit.start < hit.end_ ∧
      hit.end_ ≤ legalText.length := by
    intro g hg
    have h := Option.some.inj hg
    subst h
    decide
  have h := c6_span_invariants bobNlp legalText none hstat
  exact ⟨h.1 bobEntity (by decide), h.2 [legalEvent] (by decide) legalEvent
    (by decide)⟩

/-! ## C7 — ordering and stability -/

/-- C7 (confirmed): the entity list is sorted non-decreasing by `start` and is
a stable rearrangement of the deduplicated discovery-order list (entities
with equal `start` keep their discovery order: filtering either list to any
fixed `start` gives identical sublists); whenever the pattern-table pass
returns `ok`, the event list equals the stable sort by `start` of
pattern-table events followed by temporal events, with the same two
properties. -/
theorem c7_sorted_stable (nlp : Option (List Char → List StatHit))
    (text : List Char) (sel : Option (List String)) :
    (extract_entities nlp text sel).Pairwise (fun a b => a.start ≤ b.start) ∧
    (∀ k, (extract_entities nlp text sel).filter
        (fun e => decide (e.start = k)) =
      (dedupCore (entity_candidates nlp text sel) []).filter
        (fun e => decide (e.start = k))) ∧
    (∀ evss, pattern_events text = .ok evss →
      extract_events text = .ok (sortByKey (fun e => e.start)
        (evss.flatten ++ _extract_temporal_events text)) ∧
      (sortByKey (fun e => e.start)
        (evss.flatten ++ _extract_temporal_events text)).Pairwise
        (fun a b => a.start ≤ b.start) ∧
      (∀ k, (sortByKey (fun e => e.start)
          (evss.flatten ++ _extract_temporal_events text)).filter
            (fun e => decide (e.start = k)) =
        (evss.flatten ++ _extract_temporal_events text).filter
          (fun e => decide (e.start = k)))) := by
  refine ⟨sortByKey_pairwise _ _, fun k => sortByKey_filter_key _ _ k, ?_⟩
  intro evss hpe
  refine ⟨?_, sortByKey_pairwise _ _, fun k => sortByKey_filter_key _ _ k⟩
  rw [extract_events, hpe, except_bind_ok]
  rfl

/-- Witness for `c7_sorted_stable` at a concrete text whose pattern pass
returns one LEGAL_ACTION event. -/
theorem c7_sorted_stable_witness :
    (extract_entities none legalText none).Pairwise
      (fun a b => a.start ≤ b.start) ∧
    (extract_entities none legalText none).filter
        (fun e => decide (e.start = 0)) =
      (dedupCore (entity_candidates none legalText none) []).filter
        (fun e => decide (e.start = 0)) ∧
    extract_events legalText = .ok (sortByKey (fun e => e.start)
      (legalEvss.flatten ++ _extract_temporal_events legalText)) ∧
    (sortByKey (fun e => e.start)
      (legalEvss.flatten ++ _extract_temporal_events legalText)).Pairwise
      (fun a b => a.start ≤ b.start) ∧
    (sortByKey (fun e => e.start)
      (legalEvss.flatten ++ _extract_temporal_events legalText)).filter
        (fun e => decide (e.start = 0)) =
      (legalEvss.flatten ++ _extract_temporal_events legalText).filter
        (fun e => decide (e.start = 0)) := by
  have h := c7_sorted_stable none legalText none
  have h3 := h.2.2 legalEvss (by decide)
  exact ⟨h.1, h.2.1 0, h3.1, h3.2.1, h3.2.2 0⟩

/-! ## C8 — statistics sums -/

/-- C8 (confirmed): `total_entities` equals the entity-list length and the
entity counts sum to it; likewise for events; and the statistics are a
function of the two input lists alone. -/
theorem c8_statistics_sums (entities : List Entity) (events : List Event) :
    (_generate_statistics entities events).total_entities = entities.length ∧
    sumCounts (_generate_statistics entities events).entity_counts =
      entities.length ∧
    (_generate_statistics entities events).total_events = events.length ∧
    sumCounts (_generate_statistics entities events).event_counts =
      events.length ∧
    (∀ e2 v2, entities = e2 → events = v2 →
      _generate_statistics entities events = _generate_statistics e2 v2) := by
  refine ⟨rfl, ?_, rfl, ?_, ?_⟩
  · show sumCounts (countTypes (entities.map (fun e => e.type))) =
      entities.length
    rw [countTypes_sum, List.length_map]
  · show sumCounts (countTypes (events.map (fun e => e.type))) = events.length
    rw [countTypes_sum, List.length_map]
  · intro e2 v2 h1 h2
    rw [h1, h2]

/-- Witness for `c8_statistics_sums` (determinism conjunct instantiated). -/
theorem c8_statistics_sums_witness :
    _generate_statistics [c1e1] [legalEvent] =
      _generate_statistics [c1e1] [legalEvent] :=
  (c8_statistics_sums [c1e1] [legalEvent]).2.2.2.2 [c1e1] [legalEvent] rfl rfl

/-! ## C9 — determinism of the pipeline -/

/-- C9 (confirmed): with the statistical source held fixed, two calls of
`process_text` with identical arguments return identical results — the
pipeline is a pure function of `(source, text, filter, flag)` and carries no
cross-call state (no definition in this development threads any state). -/
theorem c9_deterministic (nlp : Option (List Char → List StatHit))
    (t1 t2 : List Char) (s1 s2 : Option (List String)) (f1 f2 : Bool)
    (ht : t1 = t2) (hs : s1 = s2) (hf : f1 = f2) :
    process_text nlp t1 s1 f1 = process_text nlp t2 s2 f2 := by
  rw [ht, hs, hf]

/-- Witness for `c9_deterministic` at concrete arguments. -/
theorem c9_deterministic_witness :
    process_text none legalText none true = process_text none legalText none true :=
  c9_deterministic none legalText legalText none none true true rfl rfl rfl

/-! ## C10 — context windows -/

/-- C10 (confirmed): every extracted annotation's `context` equals
`text[start - 50 : min(len(text), end + 50)]` with both ends stripped of
whitespace (truncated `ℕ` subtraction models `max(0, start - 50)`); the
stripping is why the context is not always the raw 50-character window. -/
theorem c10_context_window (nlp : Option (List Char → List StatHit))
    (text : List Char) (sel : Option (List String)) :
    (∀ e ∈ extract_entities nlp text sel,
        e.context =
          pyStrip (slice text (e.start - 50) (min text.length (e.end_ + 50)))) ∧
    (∀ evs, extract_events text = .ok evs → ∀ ev ∈ evs,
        ev.context =
          pyStrip (slice text (ev.start - 50) (min text.length (ev.end_ + 50)))) := by
  constructor
  · intro e he
    rcases entity_candidates_mem (extract_entities_mem he) with
      ⟨g, hg, hit, hhit, hk, heq⟩ | ⟨r, hr, m, hm, hcc, htype, hstart, hend,
        htext, hctx⟩
    · rw [heq]
      rfl
    · rw [hctx, hstart, hend]
      rfl
  · intro evs hok ev hev
    obtain ⟨ci, r, m, hco, hm, hstart, hend, htext, hctx⟩ :=
      extract_events_mem hok hev
    rw [hctx, hstart, hend]
    rfl

/-- Witness for `c10_context_window` at a concrete entity and event. -/
theorem c10_context_window_witness :
    bobEntity.context =
      pyStrip (slice legalText (bobEntity.start - 50)
        (min legalText.length (bobEntity.end_ + 50))) ∧
    legalEvent.context =
      pyStrip (slice legalText (legalEvent.start - 50)
        (min legalText.length (legalEvent.end_ + 50))) := by
  have h := c10_context_window bobNlp legalText none
  exact ⟨h.1 bobEntity (by decide),
    h.2 [legalEvent] (by decide) legalEvent (by decide)⟩

end NEE
